import Mathlib

/-!
Verification development for the request-serialization queue core and the
generated-code execution wrapper of the prizemlyator repository.

The embedding follows `src/services/queue_service.py` and
`src/utils/text_utils.py`.  Python dicts are modelled as insertion-ordered
association lists (which is how CPython dicts behave), the `queue.Queue`
of request dicts is modelled as the list of request ids it holds (each
queued dict is the same object as the entry of `processing_status`, so the
id suffices to recover the record), and the background worker loop is
modelled by explicit step functions (`worker_begin` for the dequeue /
mark-processing half of an iteration, `worker_finish` for the
execute / record-outcome half).  The external generation functions
(`AIService`, `CodeGeneratorNode`) are parameters (`Backend`), returning
`Except String String`: `Except.error` models a raised exception with the
given message.  The id produced by `str(uuid.uuid4())[:8]` is likewise an
input of `add_to_queue`.
-/

namespace Prizemlyator

/-- Whether `pat` occurs at the start of `s` (character lists). -/
def leadsWith : List Char → List Char → Bool
  | [], _ => true
  | _ :: _, [] => false
  | a :: as, b :: bs => a = b && leadsWith as bs

/-- Whether `pat` occurs somewhere in `s`; models the Python operator
`pat in s` on strings. -/
def listContains (pat : List Char) : List Char → Bool
  | [] => pat.isEmpty
  | c :: rest => leadsWith pat (c :: rest) || listContains pat rest

/-- Python `pat in s` for strings. -/
def strContains (s pat : String) : Bool :=
  listContains pat.data s.data

/-- One replacement pass over character lists: every non-overlapping
occurrence of `pat` (scanned left to right) is replaced by `rep`;
models Python `s.replace(pat, rep)` for nonempty `pat`. -/
def listReplace (pat rep : List Char) (s : List Char) : List Char :=
  match s with
  | [] => []
  | c :: rest =>
      if h : pat ≠ [] ∧ leadsWith pat (c :: rest) = true then
        rep ++ listReplace pat rep ((c :: rest).drop pat.length)
      else
        c :: listReplace pat rep rest
termination_by s.length
decreasing_by
  · simp only [List.length_drop, List.length_cons]
    have hp : 0 < pat.length := List.length_pos.mpr h.1
    omega
  · simp only [List.length_cons]
    omega

/-- Python `s.replace(pat, rep)` for strings. -/
def strReplace (s pat rep : String) : String :=
  ⟨listReplace pat.data rep.data s.data⟩

/-- Request status, the `status` field of a queue item
(`'waiting' | 'processing' | 'completed' | 'error'`). -/
inductive Status where
  | waiting
  | processing
  | completed
  | error
  deriving DecidableEq, Repr

/-- The `request_data` dict handed to `add_to_queue`: a `type` tag plus the
named parameters the various operations read (`request_data['query']`,
`request_data.get('selected_option')`, ...).  `none` models an absent key. -/
structure RequestData where
  type : String
  query : Option String := none
  df_info : Option String := none
  selected_option : Option String := none
  state : Option String := none
  doc_results : Option String := none
  deriving DecidableEq, Repr

/-- One request record (`QueueItem.__dict__` from `src/models.py`): the dict
stored both in the queue and in `processing_status`.  `result` and `error`
model the keys added by the worker (absent at enqueue time). -/
structure QueueItem where
  request_id : String
  session_id : String
  timestamp : Nat
  request_data : RequestData
  status : Status
  result : Option String := none
  error : Option String := none
  deriving DecidableEq, Repr

/-- The external generation functions dispatched to by
`QueueService._execute_request`; `Except.error m` models the function
raising an exception whose `str` is `m`. -/
structure Backend where
  generate_work_plan_code : String → String → Option String → Except String String
  generate_drilling_code : String → Option String → Except String String
  generate_measurement_code : String → Option String → Except String String
  generate_gas_utilization_code : String → Option String → Except String String
  generate_final_response : String → Except String String
  generate_documentation_response : String → String → Except String String

/-- Python `d[key]` on an optional field: raises `KeyError` when absent. -/
def getField {α : Type} (o : Option α) (key : String) : Except String α :=
  match o with
  | some v => Except.ok v
  | none => Except.error ("KeyError: " ++ key)

/-- `QueueService._execute_request`: dispatch on `request_data['type']`,
calling the matching generation function, or raising
`ValueError(f"Неизвестный тип запроса: {request_type}")` for any other tag. -/
def execute_request (b : Backend) (rd : RequestData) : Except String String :=
  if rd.type = "generate_work_plan_code" then do
    let q ← getField rd.query "query"
    let d ← getField rd.df_info "df_info"
    b.generate_work_plan_code q d rd.selected_option
  else if rd.type = "generate_drilling_code" then do
    let q ← getField rd.query "query"
    b.generate_drilling_code q rd.selected_option
  else if rd.type = "generate_measurement_code" then do
    let q ← getField rd.query "query"
    b.generate_measurement_code q rd.selected_option
  else if rd.type = "generate_gas_utilization_code" then do
    let q ← getField rd.query "query"
    b.generate_gas_utilization_code q rd.selected_option
  else if rd.type = "generate_final_response" then do
    let st ← getField rd.state "state"
    b.generate_final_response st
  else if rd.type = "generate_documentation_response" then do
    let q ← getField rd.query "query"
    let dr ← getField rd.doc_results "doc_results"
    b.generate_documentation_response q dr
  else
    Except.error ("Неизвестный тип запроса: " ++ rd.type)

/-- The request-type tags `_execute_request` recognizes (the six `if` /
`elif` branches, in source order). -/
def knownTypes : List String :=
  ["generate_work_plan_code", "generate_drilling_code",
   "generate_measurement_code", "generate_gas_utilization_code",
   "generate_final_response", "generate_documentation_response"]

/-- Lookup in an insertion-ordered association list (Python `d[k]` /
`k in d`, first matching key). -/
def tblGet (t : List (String × QueueItem)) (k : String) : Option QueueItem :=
  match t with
  | [] => none
  | (k0, v) :: rest => if k0 = k then some v else tblGet rest k

/-- Python dict assignment `d[k] = v`: overwrite in place if the key is
present, else append at the end (CPython dicts preserve insertion order). -/
def tblSet (t : List (String × QueueItem)) (k : String) (v : QueueItem) :
    List (String × QueueItem) :=
  match t with
  | [] => [(k, v)]
  | (k0, v0) :: rest =>
      if k0 = k then (k0, v) :: rest else (k0, v0) :: tblSet rest k v

/-- In-place mutation of the record stored under `k`
(`d[k]['status'] = ...`); a no-op when the key is absent (the source would
raise `KeyError`, which cannot happen in reachable states because
`add_to_queue` registers the record before queueing it). -/
def tblModify (t : List (String × QueueItem)) (k : String)
    (f : QueueItem → QueueItem) : List (String × QueueItem) :=
  match t with
  | [] => []
  | (k0, v) :: rest =>
      if k0 = k then (k0, f v) :: rest else (k0, v) :: tblModify rest k f

/-- The mutable state of a `QueueService` instance: `queue` is the FIFO of
queued request ids (front first), `table` is `processing_status`. -/
structure QState where
  queue : List String
  table : List (String × QueueItem)
  current_processing : Option String
  is_processing : Bool
  deriving Repr

/-- `QueueService.__init__`. -/
def initState : QState :=
  { queue := [], table := [], current_processing := none, is_processing := false }

/-- A fresh record as built by `add_to_queue` (status `'waiting'`, no
`result` / `error` keys yet). -/
def mkQueueItem (rid sid : String) (ts : Nat) (rd : RequestData) : QueueItem :=
  { request_id := rid, session_id := sid, timestamp := ts,
    request_data := rd, status := Status.waiting }

/-- `QueueService.add_to_queue`: build the item, put it on the queue,
register it in `processing_status`, and ensure the worker is running.
`rid` is the id drawn as `str(uuid.uuid4())[:8]` — an input of the model. -/
def add_to_queue (s : QState) (rid sid : String) (ts : Nat) (rd : RequestData) :
    QState :=
  { s with
    queue := s.queue ++ [rid],
    table := tblSet s.table rid (mkQueueItem rid sid ts rd),
    is_processing := true }

/-- First half of one worker-loop iteration
(`QueueService._process_queue`): `queue.get` the head item, remember it in
`current_processing`, and mark its record `'processing'`. -/
def worker_begin (s : QState) : QState :=
  match s.queue with
  | [] => s
  | rid :: rest =>
      { s with
        queue := rest,
        current_processing := some rid,
        table := tblModify s.table rid
          (fun r => { r with status := Status.processing }) }

/-- Second half of one worker-loop iteration: run `_execute_request` on the
current item and record the outcome — `'completed'` with the result, or,
when the call raised, `'error'` with `str(e)` (the `except Exception`
branch of `_process_queue`). -/
def worker_finish (b : Backend) (s : QState) : QState :=
  match s.current_processing with
  | none => s
  | some rid =>
      match tblGet s.table rid with
      | none => s
      | some r =>
          match execute_request b r.request_data with
          | Except.ok res =>
              { s with
                current_processing := none,
                table := tblModify s.table rid
                  (fun r0 =>
                    { r0 with
                      status := Status.completed
                      result := some res }) }
          | Except.error msg =>
              { s with
                current_processing := none,
                table := tblModify s.table rid
                  (fun r0 =>
                    { r0 with
                      status := Status.error
                      error := some msg }) }

/-- One full pass of the worker loop body: process the head item, or — on
`queue.Empty` timeout — clear `is_processing` and exit the loop. -/
def worker_iteration (b : Backend) (s : QState) : QState :=
  match s.queue with
  | [] => { s with is_processing := false }
  | _ :: _ => worker_finish b (worker_begin s)

/-- Run `n` worker-loop iterations. -/
def drain (b : Backend) : Nat → QState → QState
  | 0, s => s
  | n + 1, s => drain b n (worker_iteration b s)

/-- The scan of `list(self.queue.queue)` in `get_queue_position`:
`position = 0`, then `position = i + 1` at the first index holding the
request, leaving `0` when it is absent. -/
def findPosition : List String → String → Nat → Nat
  | [], _, _ => 0
  | x :: rest, rid, i => if x = rid then i + 1 else findPosition rest rid (i + 1)

/-- `QueueService.get_queue_position`. -/
def get_queue_position (s : QState) (rid : String) : Int × String :=
  match tblGet s.table rid with
  | none => (-1, "Запрос не найден")
  | some r =>
      match r.status with
      | Status.processing => (0, "Обрабатывается")
      | Status.completed => (-1, "Завершено")
      | Status.error => (-1, "Ошибка")
      | Status.waiting =>
          let p := findPosition s.queue rid 0
          ((p : Int), "В очереди (позиция " ++ toString p ++ ")")

/-- Outcome of `QueueService.get_result`: a returned value, or a raised
`Exception` with the given message. -/
inductive ResultOutcome where
  | value (v : Option String)
  | raised (msg : String)
  deriving DecidableEq, Repr

/-- `QueueService.get_result`: the stored result when `'completed'`,
`raise Exception(stored error)` when `'error'`, `None` otherwise. -/
def get_result (s : QState) (rid : String) : ResultOutcome :=
  match tblGet s.table rid with
  | none => ResultOutcome.value none
  | some r =>
      match r.status with
      | Status.completed => ResultOutcome.value r.result
      | Status.error =>
          ResultOutcome.raised (r.error.getD "Неизвестная ошибка")
      | _ => ResultOutcome.value none

/-- What one iteration of the `queue_aware_generation` poll loop decides,
given the `(position, status_text)` pair it observed. -/
inductive LoopDecision where
  | keepPolling
  | finishCompleted
  | finishErrorDisplay
  | finishNotFound
  deriving DecidableEq, Repr

/-- The branch structure of the poll-loop body in `queue_aware_generation`:
on `position == -1` it breaks — through the success branch when
`"Завершено" in status_text`, through the error-display branch when
`"Ошибка" in status_text`, else through the info branch; any other
position keeps polling. -/
def wait_loop_decision (pos : Int) (statusText : String) : LoopDecision :=
  if pos = -1 then
    if strContains statusText "Завершено" then LoopDecision.finishCompleted
    else if strContains statusText "Ошибка" then LoopDecision.finishErrorDisplay
    else LoopDecision.finishNotFound
  else LoopDecision.keepPolling

/-- How `queue_aware_generation` ends, once it ends.  `returned v` is the
normal `return result` after the success branch assigned `result`;
`unboundLocal` is `return result` reached with `result` never assigned —
in Python an `UnboundLocalError`, not an error carrying any stored
detail. -/
inductive WaitOutcome where
  | returned (v : Option String)
  | raisedFromGetResult (msg : String)
  | unboundLocal
  deriving DecidableEq, Repr

/-- The outcome of `queue_aware_generation` when it polls state `s`:
`none` while the loop keeps polling; otherwise the terminal outcome.  Only
the success branch calls `get_result`; the error-display and not-found
branches break with the local `result` never assigned. -/
def wait_outcome_at (s : QState) (rid : String) : Option WaitOutcome :=
  let obs := get_queue_position s rid
  match wait_loop_decision obs.fst obs.snd with
  | LoopDecision.keepPolling => none
  | LoopDecision.finishCompleted =>
      match get_result s rid with
      | ResultOutcome.value v => some (WaitOutcome.returned v)
      | ResultOutcome.raised m => some (WaitOutcome.raisedFromGetResult m)
  | LoopDecision.finishErrorDisplay => some WaitOutcome.unboundLocal
  | LoopDecision.finishNotFound => some WaitOutcome.unboundLocal

/-- Outcome of `exec(safe_code, local_vars)` in `execute_generated_code`:
the captured stdout when the call returns (the inner guard may have turned
a generated-code exception into printed text), or `raised msg` when an
exception escaped `exec` itself (e.g. a `SyntaxError`). -/
inductive ExecOutcome where
  | finished (stdout : String)
  | raised (msg : String)
  deriving DecidableEq, Repr

/-- The external effects `execute_generated_code` runs against: the Python
`exec` of the wrapped source, the `os.path.exists` check, and the
timestamp / uuid pieces of the unique plot name. -/
structure ExecEnv where
  run : String → ExecOutcome
  fileExists : String → Bool
  timestamp : String
  unique_id : String

/-- The result triple of `execute_generated_code`. -/
structure ExecResult where
  output : String
  plot_path : Option String
  code : String
  deriving DecidableEq, Repr

/-- The `plot_{timestamp}_{unique_id}.png` name built for the rewritten
`plt.savefig` call. -/
def uniquePlotName (env : ExecEnv) : String :=
  "plot_" ++ env.timestamp ++ "_" ++ env.unique_id ++ ".png"

/-- The `plt.show()` rewrite of `execute_generated_code`: when the code
calls `plt.show()`, prepend a `plt.figure(...)` line unless one is already
present, then replace every `plt.show()` with a `plt.tight_layout()` plus
`plt.savefig(<unique name>)` pair; other code passes through unchanged. -/
def rewritePlot (env : ExecEnv) (code : String) : String :=
  if strContains code "plt.show()" then
    let code1 :=
      if strContains code "plt.figure(" then code
      else "plt.figure(figsize=(10, 6))\n" ++ code
    strReplace code1 "plt.show()"
      ("plt.tight_layout()\nplt.savefig(\x27" ++ uniquePlotName env ++
        "\x27, dpi=150, bbox_inches=\x27tight\x27)")
  else code

/-- The `safe_code` wrapper: strip the code (substituting `pass` when
empty), indent every line under a `try:`, and append an
`except Exception` arm that prints the failure. -/
def indentWrap (code : String) : String :=
  let indented := code.trim
  let body := if indented = "" then "pass" else indented
  "try:\n" ++
    String.join ((body.splitOn "\n").map (fun line => "    " ++ line ++ "\n")) ++
    "except Exception as e:\n    print(f\"Ошибка при выполнении анализа: {str(e)}\")\n"

/-- `execute_generated_code` from `src/utils/text_utils.py`: rewrite the
plotting call, execute the guarded code capturing stdout, then keep the
plot path only when a plot was requested, the file exists, and the output
does not contain `"Ошибка"`; the outer `except Exception` turns any
escaped exception into a text-only triple. -/
def execute_generated_code (env : ExecEnv) (code : String) : ExecResult :=
  let hasPlot := strContains code "plt.show()"
  let code1 := rewritePlot env code
  let plotPath0 : Option String :=
    if hasPlot then some (uniquePlotName env) else none
  match env.run (indentWrap code1) with
  | ExecOutcome.raised msg =>
      { output := "Ошибка при выполнении кода:\n" ++ msg,
        plot_path := none, code := code1 }
  | ExecOutcome.finished out =>
      let keep := hasPlot && plotPath0.isSome &&
        env.fileExists (uniquePlotName env) && !(strContains out "Ошибка")
      { output := out,
        plot_path := if keep then plotPath0 else none,
        code := code1 }

/-! ### Status-table lemmas -/

/-- Keys of the status table in insertion order. -/
def keyList (t : List (String × QueueItem)) : List String := t.map Prod.fst

/-- Ids of the records still `'waiting'`, in insertion order. -/
def waitingIds (t : List (String × QueueItem)) : List String :=
  (t.filter (fun p => p.2.status == Status.waiting)).map Prod.fst

theorem tblGet_set_self (t : List (String × QueueItem)) (k : String)
    (v : QueueItem) : tblGet (tblSet t k v) k = some v := by
  induction t with
  | nil => simp [tblSet, tblGet]
  | cons p rest ih =>
      obtain ⟨k0, v0⟩ := p
      by_cases h : k0 = k <;> simp [tblSet, tblGet, h, ih]

theorem tblGet_set_diff (t : List (String × QueueItem)) (k k2 : String)
    (v : QueueItem) (h : k2 ≠ k) :
    tblGet (tblSet t k v) k2 = tblGet t k2 := by
  induction t with
  | nil => simp [tblSet, tblGet, Ne.symm h]
  | cons p rest ih =>
      obtain ⟨k0, v0⟩ := p
      by_cases h0 : k0 = k
      · subst h0
        simp [tblSet, tblGet, Ne.symm h]
      · by_cases h2 : k0 = k2 <;> simp [tblSet, tblGet, h0, h2, ih, h, Ne.symm h]

theorem tblGet_modify_self (t : List (String × QueueItem)) (k : String)
    (f : QueueItem → QueueItem) :
    tblGet (tblModify t k f) k = (tblGet t k).map f := by
  induction t with
  | nil => simp [tblModify, tblGet]
  | cons p rest ih =>
      obtain ⟨k0, v0⟩ := p
      by_cases h : k0 = k <;> simp [tblModify, tblGet, h, ih]

theorem tblGet_modify_diff (t : List (String × QueueItem)) (k k2 : String)
    (f : QueueItem → QueueItem) (h : k2 ≠ k) :
    tblGet (tblModify t k f) k2 = tblGet t k2 := by
  induction t with
  | nil => simp [tblModify, tblGet]
  | cons p rest ih =>
      obtain ⟨k0, v0⟩ := p
      by_cases h0 : k0 = k
      · subst h0
        simp [tblModify, tblGet, Ne.symm h]
      · by_cases h2 : k0 = k2 <;> simp [tblModify, tblGet, h0, h2, ih, h, Ne.symm h]

theorem keyList_cons (k0 : String) (v0 : QueueItem)
    (rest : List (String × QueueItem)) :
    keyList ((k0, v0) :: rest) = k0 :: keyList rest := rfl

theorem waitingIds_cons (k0 : String) (v0 : QueueItem)
    (rest : List (String × QueueItem)) :
    waitingIds ((k0, v0) :: rest) =
      if v0.status = Status.waiting then k0 :: waitingIds rest
      else waitingIds rest := by
  by_cases h : v0.status = Status.waiting <;>
    simp [waitingIds, List.filter_cons, h]

theorem tblGet_none_iff (t : List (String × QueueItem)) (k : String) :
    tblGet t k = none ↔ k ∉ keyList t := by
  induction t with
  | nil => simp [tblGet, keyList]
  | cons p rest ih =>
      obtain ⟨k0, v0⟩ := p
      rw [keyList_cons]
      by_cases h : k0 = k
      · subst h
        simp [tblGet]
      · simp [tblGet, h, ih, Ne.symm h]

theorem tblGet_some_of_mem (t : List (String × QueueItem)) (k : String)
    (h : k ∈ keyList t) : ∃ r, tblGet t k = some r := by
  cases hg : tblGet t k with
  | none => exact absurd ((tblGet_none_iff t k).mp hg) (by simp [h])
  | some r => exact ⟨r, rfl⟩

theorem keyList_set_fresh (t : List (String × QueueItem)) (k : String)
    (v : QueueItem) (h : tblGet t k = none) :
    keyList (tblSet t k v) = keyList t ++ [k] := by
  induction t with
  | nil => simp [tblSet, keyList]
  | cons p rest ih =>
      obtain ⟨k0, v0⟩ := p
      simp only [tblGet] at h
      by_cases h0 : k0 = k
      · simp [h0] at h
      · rw [if_neg h0] at h
        have hstep : tblSet ((k0, v0) :: rest) k v = (k0, v0) :: tblSet rest k v := by
          simp [tblSet, h0]
        rw [hstep, keyList_cons, keyList_cons, ih h]
        rfl

theorem keyList_modify (t : List (String × QueueItem)) (k : String)
    (f : QueueItem → QueueItem) : keyList (tblModify t k f) = keyList t := by
  induction t with
  | nil => simp [tblModify, keyList]
  | cons p rest ih =>
      obtain ⟨k0, v0⟩ := p
      by_cases h : k0 = k
      · simp [tblModify, h, keyList]
      · have hstep : tblModify ((k0, v0) :: rest) k f = (k0, v0) :: tblModify rest k f := by
          simp [tblModify, h]
        rw [hstep, keyList_cons, keyList_cons, ih]

theorem waitingIds_sub_keys (t : List (String × QueueItem)) (k : String)
    (h : k ∈ waitingIds t) : k ∈ keyList t := by
  induction t with
  | nil => simp [waitingIds] at h
  | cons p rest ih =>
      obtain ⟨k0, v0⟩ := p
      rw [waitingIds_cons] at h
      rw [keyList_cons]
      by_cases hw : v0.status = Status.waiting
      · rw [if_pos hw] at h
        rcases List.mem_cons.mp h with h | h
        · exact List.mem_cons.mpr (Or.inl h)
        · exact List.mem_cons.mpr (Or.inr (ih h))
      · rw [if_neg hw] at h
        exact List.mem_cons.mpr (Or.inr (ih h))

theorem waitingIds_set_fresh (t : List (String × QueueItem)) (k sid : String)
    (ts : Nat) (rd : RequestData) (h : tblGet t k = none) :
    waitingIds (tblSet t k (mkQueueItem k sid ts rd)) = waitingIds t ++ [k] := by
  induction t with
  | nil => simp [tblSet, waitingIds, mkQueueItem, List.filter_cons]
  | cons p rest ih =>
      obtain ⟨k0, v0⟩ := p
      simp only [tblGet] at h
      by_cases h0 : k0 = k
      · simp [h0] at h
      · rw [if_neg h0] at h
        by_cases hw : v0.status = Status.waiting <;>
          simp [tblSet, h0, waitingIds_cons, hw, ih h]

theorem get_waiting_mem (t : List (String × QueueItem)) (k : String)
    (r : QueueItem) (h : tblGet t k = some r) (hw : r.status = Status.waiting) :
    k ∈ waitingIds t := by
  induction t with
  | nil => simp [tblGet] at h
  | cons p rest ih =>
      obtain ⟨k0, v0⟩ := p
      rw [waitingIds_cons]
      by_cases h0 : k0 = k
      · subst h0
        rw [tblGet, if_pos rfl] at h
        injection h with h
        subst h
        rw [if_pos hw]
        exact List.mem_cons_self _ _
      · rw [tblGet, if_neg h0] at h
        by_cases hv : v0.status = Status.waiting
        · rw [if_pos hv]
          exact List.mem_cons.mpr (Or.inr (ih h))
        · rw [if_neg hv]
          exact ih h

theorem mem_waitingIds_get (t : List (String × QueueItem)) (k : String)
    (hnd : (keyList t).Nodup) (h : k ∈ waitingIds t) :
    ∃ r, tblGet t k = some r ∧ r.status = Status.waiting := by
  induction t with
  | nil => simp [waitingIds] at h
  | cons p rest ih =>
      obtain ⟨k0, v0⟩ := p
      rw [keyList_cons, List.nodup_cons] at hnd
      rw [waitingIds_cons] at h
      by_cases h0 : k0 = k
      · subst h0
        have hk : k0 ∉ waitingIds rest := fun hmem =>
          hnd.1 (waitingIds_sub_keys rest k0 hmem)
        by_cases hv : v0.status = Status.waiting
        · exact ⟨v0, by rw [tblGet, if_pos rfl], hv⟩
        · rw [if_neg hv] at h
          exact absurd h hk
      · have hmem : k ∈ waitingIds rest := by
          by_cases hv : v0.status = Status.waiting
          · rw [if_pos hv] at h
            rcases List.mem_cons.mp h with h | h
            · exact absurd h.symm h0
            · exact h
          · rwa [if_neg hv] at h
        obtain ⟨r, hr, hrw⟩ := ih hnd.2 hmem
        exact ⟨r, by rw [tblGet, if_neg h0, hr], hrw⟩

/-- `waitingIds` is unchanged when the modified record was not waiting and
stays not waiting (the `worker_finish` updates). -/
theorem waitingIds_modify_away (t : List (String × QueueItem)) (k : String)
    (f : QueueItem → QueueItem) (r : QueueItem)
    (hg : tblGet t k = some r) (hb : r.status ≠ Status.waiting)
    (hf : ∀ r0, (f r0).status ≠ Status.waiting) :
    waitingIds (tblModify t k f) = waitingIds t := by
  induction t with
  | nil => simp [tblModify]
  | cons p rest ih =>
      obtain ⟨k0, v0⟩ := p
      by_cases h0 : k0 = k
      · rw [tblGet, if_pos h0] at hg
        injection hg with hg
        subst hg
        have hstep : tblModify ((k0, v0) :: rest) k f = (k0, f v0) :: rest := by
          simp [tblModify, h0]
        rw [hstep, waitingIds_cons, waitingIds_cons, if_neg hb, if_neg (hf v0)]
      · rw [tblGet, if_neg h0] at hg
        have hstep : tblModify ((k0, v0) :: rest) k f =
            (k0, v0) :: tblModify rest k f := by
          simp [tblModify, h0]
        rw [hstep, waitingIds_cons, waitingIds_cons, ih hg]

/-- Marking the head waiting record non-waiting pops it from `waitingIds`
(the `worker_begin` update). -/
theorem waitingIds_modify_head (t : List (String × QueueItem)) (k : String)
    (rest2 : List String) (f : QueueItem → QueueItem)
    (hnd : (keyList t).Nodup) (hq : waitingIds t = k :: rest2)
    (hf : ∀ r0, (f r0).status ≠ Status.waiting) :
    waitingIds (tblModify t k f) = rest2 := by
  induction t with
  | nil => simp [waitingIds] at hq
  | cons p rest ih =>
      obtain ⟨k0, v0⟩ := p
      rw [keyList_cons, List.nodup_cons] at hnd
      rw [waitingIds_cons] at hq
      by_cases hv : v0.status = Status.waiting
      · rw [if_pos hv] at hq
        injection hq with hq1 hq2
        subst hq1
        have hstep : tblModify ((k0, v0) :: rest) k0 f = (k0, f v0) :: rest := by
          simp [tblModify]
        rw [hstep, waitingIds_cons, if_neg (hf v0), hq2]
      · rw [if_neg hv] at hq
        have hk0 : k0 ≠ k := by
          intro hkk
          subst hkk
          exact hnd.1 (waitingIds_sub_keys rest k0 (hq ▸ List.mem_cons_self _ _))
        have hstep : tblModify ((k0, v0) :: rest) k f =
            (k0, v0) :: tblModify rest k f := by
          simp [tblModify, hk0]
        rw [hstep, waitingIds_cons, if_neg hv, ih hnd.2 hq]

/-! ### Enqueue order -/

/-- Index of the first entry with key `k` (insertion rank of a request in
`processing_status`; meaningful when the key is present). -/
def keyIdx (t : List (String × QueueItem)) (k : String) : Nat :=
  match t with
  | [] => 0
  | (k0, _) :: rest => if k0 = k then 0 else keyIdx rest k + 1

/-- Index of the first occurrence of `k` in a list of ids. -/
def listIdx (l : List String) (k : String) : Nat :=
  match l with
  | [] => 0
  | x :: rest => if x = k then 0 else listIdx rest k + 1

theorem findPosition_eq (q : List String) (rid : String) (i : Nat)
    (h : rid ∈ q) : findPosition q rid i = i + listIdx q rid + 1 := by
  induction q generalizing i with
  | nil => simp at h
  | cons x rest ih =>
      by_cases hx : x = rid
      · simp [findPosition, listIdx, hx]
      · have hm : rid ∈ rest := by
          rcases List.mem_cons.mp h with hh | hh
          · exact absurd hh.symm hx
          · exact hh
        rw [findPosition, if_neg hx, listIdx, if_neg hx, ih i.succ hm]
        omega

/-- Filtering the table down to the waiting records preserves relative
insertion order. -/
theorem waiting_order (t : List (String × QueueItem)) (A B : String)
    (rA rB : QueueItem) (hnd : (keyList t).Nodup)
    (hA : tblGet t A = some rA) (hwA : rA.status = Status.waiting)
    (hB : tblGet t B = some rB) (hwB : rB.status = Status.waiting)
    (hAB : keyIdx t A < keyIdx t B) :
    listIdx (waitingIds t) A < listIdx (waitingIds t) B := by
  induction t with
  | nil => simp [tblGet] at hA
  | cons p rest ih =>
      obtain ⟨k0, v0⟩ := p
      rw [keyList_cons, List.nodup_cons] at hnd
      by_cases hA0 : k0 = A
      · rw [tblGet, if_pos hA0] at hA
        injection hA with hA
        have hB0 : k0 ≠ B := by
          intro hkk
          rw [keyIdx, if_pos hA0, keyIdx, if_pos hkk] at hAB
          omega
        have hv : v0.status = Status.waiting := by rw [hA]; exact hwA
        rw [waitingIds_cons, if_pos hv, listIdx, if_pos hA0, listIdx, if_neg hB0]
        omega
      · rw [tblGet, if_neg hA0] at hA
        have hB0 : k0 ≠ B := by
          intro hkk
          rw [keyIdx, if_neg hA0, keyIdx, if_pos hkk] at hAB
          omega
        rw [tblGet, if_neg hB0] at hB
        rw [keyIdx, if_neg hA0, keyIdx, if_neg hB0] at hAB
        have hrec := ih hnd.2 hA hB (by omega)
        rw [waitingIds_cons]
        by_cases hv : v0.status = Status.waiting
        · rw [if_pos hv, listIdx, if_neg hA0, listIdx, if_neg hB0]
          omega
        · rw [if_neg hv]
          exact hrec

/-- The head of `waitingIds` is the earliest-enqueued waiting request. -/
theorem waiting_head_min (t : List (String × QueueItem)) (h A : String)
    (rest2 : List String) (rA : QueueItem) (hnd : (keyList t).Nodup)
    (hq : waitingIds t = h :: rest2)
    (hA : tblGet t A = some rA) (hwA : rA.status = Status.waiting) :
    keyIdx t h ≤ keyIdx t A := by
  induction t with
  | nil => simp [waitingIds] at hq
  | cons p rest ih =>
      obtain ⟨k0, v0⟩ := p
      rw [keyList_cons, List.nodup_cons] at hnd
      rw [waitingIds_cons] at hq
      by_cases hv : v0.status = Status.waiting
      · rw [if_pos hv] at hq
        injection hq with hq1 hq2
        rw [keyIdx, if_pos hq1]
        omega
      · rw [if_neg hv] at hq
        have hA0 : k0 ≠ A := by
          intro hkk
          rw [tblGet, if_pos hkk] at hA
          injection hA with hA
          exact hv (hA ▸ hwA)
        have hh0 : k0 ≠ h := by
          intro hkk
          subst hkk
          exact hnd.1 (waitingIds_sub_keys rest k0 (hq ▸ List.mem_cons_self _ _))
        rw [tblGet, if_neg hA0] at hA
        have h1 : keyIdx ((k0, v0) :: rest) h = keyIdx rest h + 1 := by
          rw [keyIdx, if_neg hh0]
        have h2 : keyIdx ((k0, v0) :: rest) A = keyIdx rest A + 1 := by
          rw [keyIdx, if_neg hA0]
        rw [h1, h2]
        have := ih hnd.2 hq hA
        omega

/-! ### Reachable states and their invariant -/

/-- Well-formedness of a queue-service state, holding in every reachable
state: table keys are distinct ids, the pending queue holds exactly the
ids of the still-waiting records in insertion order, and the item under
processing has a registered record in status `'processing'`. -/
structure WF (s : QState) : Prop where
  keys_nodup : (keyList s.table).Nodup
  queue_eq : s.queue = waitingIds s.table
  cur_ok : ∀ rid, s.current_processing = some rid →
    ∃ r, tblGet s.table rid = some r ∧ r.status = Status.processing

theorem worker_begin_nil (s : QState) (h : s.queue = []) :
    worker_begin s = s := by
  unfold worker_begin
  rw [h]

theorem worker_begin_cons (s : QState) (rid : String) (rest : List String)
    (h : s.queue = rid :: rest) :
    worker_begin s =
      { s with
        queue := rest,
        current_processing := some rid,
        table := tblModify s.table rid
          (fun r => { r with status := Status.processing }) } := by
  unfold worker_begin
  rw [h]

/-- Atomic transitions of the service: an `add_to_queue` call by any
session (with a freshly drawn uuid prefix), the two halves of one
worker-loop iteration, and the empty-queue timeout ending the worker
loop. -/
inductive QStep (b : Backend) : QState → QState → Prop where
  | enqueue (s : QState) (rid sid : String) (ts : Nat) (rd : RequestData)
      (fresh : tblGet s.table rid = none) :
      QStep b s (add_to_queue s rid sid ts rd)
  | work_begin (s : QState) (hc : s.current_processing = none) :
      QStep b s (worker_begin s)
  | work_finish (s : QState) : QStep b s (worker_finish b s)
  | work_timeout (s : QState) (hq : s.queue = []) :
      QStep b s { s with is_processing := false }

/-- States reachable from a fresh `QueueService()`. -/
inductive Reach (b : Backend) : QState → Prop where
  | init : Reach b initState
  | step {s s2 : QState} : Reach b s → QStep b s s2 → Reach b s2

/-- Zero or more transitions. -/
inductive QStar (b : Backend) : QState → QState → Prop where
  | refl (s : QState) : QStar b s s
  | tail {s t u : QState} : QStar b s t → QStep b t u → QStar b s u

theorem wf_enqueue (s : QState) (rid sid : String) (ts : Nat)
    (rd : RequestData) (hw : WF s) (fresh : tblGet s.table rid = none) :
    WF (add_to_queue s rid sid ts rd) := by
  have hmem : rid ∉ keyList s.table := (tblGet_none_iff _ _).mp fresh
  refine ⟨?_, ?_, ?_⟩
  · rw [add_to_queue]
    simp only
    rw [keyList_set_fresh _ _ _ fresh]
    simp [List.nodup_append, hw.keys_nodup, hmem]
  · rw [add_to_queue]
    simp only
    rw [waitingIds_set_fresh _ _ _ _ _ fresh, hw.queue_eq]
  · intro rid0 hc
    rw [add_to_queue] at hc ⊢
    simp only at hc ⊢
    obtain ⟨r, hr, hrp⟩ := hw.cur_ok rid0 hc
    have hne : rid0 ≠ rid := by
      intro hkk
      rw [hkk, fresh] at hr
      exact Option.noConfusion hr
    exact ⟨r, by rw [tblGet_set_diff _ _ _ _ hne, hr], hrp⟩

theorem wf_begin (s : QState) (hw : WF s) (hc : s.current_processing = none) :
    WF (worker_begin s) := by
  cases hq : s.queue with
  | nil => rw [worker_begin_nil s hq]; exact hw
  | cons rid rest =>
      rw [worker_begin_cons s rid rest hq]
      have hqw : waitingIds s.table = rid :: rest := by rw [← hw.queue_eq, hq]
      have hf : ∀ r0 : QueueItem,
          ({ r0 with status := Status.processing } : QueueItem).status ≠
            Status.waiting := by intro r0; simp
      refine ⟨?_, ?_, ?_⟩
      · simp only
        rw [keyList_modify]
        exact hw.keys_nodup
      · simp only
        rw [waitingIds_modify_head s.table rid rest _ hw.keys_nodup hqw hf]
      · intro rid0 hc0
        simp only at hc0 ⊢
        injection hc0 with hc0
        subst hc0
        obtain ⟨r, hr, hrw⟩ := mem_waitingIds_get s.table rid hw.keys_nodup
          (by rw [hqw]; exact List.mem_cons_self _ _)
        refine ⟨{ r with status := Status.processing }, ?_, rfl⟩
        rw [tblGet_modify_self, hr]
        rfl

theorem worker_finish_none (b : Backend) (s : QState)
    (h : s.current_processing = none) : worker_finish b s = s := by
  unfold worker_finish
  rw [h]

theorem worker_finish_ok (b : Backend) (s : QState) (rid : String)
    (r : QueueItem) (res : String) (hc : s.current_processing = some rid)
    (hg : tblGet s.table rid = some r)
    (hex : execute_request b r.request_data = Except.ok res) :
    worker_finish b s =
      { s with
        current_processing := none,
        table := tblModify s.table rid
          (fun r0 =>
            { r0 with
              status := Status.completed
              result := some res }) } := by
  unfold worker_finish
  rw [hc]
  simp only [hg, hex]

theorem worker_finish_failed (b : Backend) (s : QState) (rid : String)
    (r : QueueItem) (msg : String) (hc : s.current_processing = some rid)
    (hg : tblGet s.table rid = some r)
    (hex : execute_request b r.request_data = Except.error msg) :
    worker_finish b s =
      { s with
        current_processing := none,
        table := tblModify s.table rid
          (fun r0 =>
            { r0 with
              status := Status.error
              error := some msg }) } := by
  unfold worker_finish
  rw [hc]
  simp only [hg, hex]

theorem wf_finish (b : Backend) (s : QState) (hw : WF s) :
    WF (worker_finish b s) := by
  cases hc : s.current_processing with
  | none => rw [worker_finish_none b s hc]; exact hw
  | some rid =>
      obtain ⟨r, hg, hrp⟩ := hw.cur_ok rid hc
      have hbne : r.status ≠ Status.waiting := by rw [hrp]; simp
      cases hex : execute_request b r.request_data with
      | ok res =>
          rw [worker_finish_ok b s rid r res hc hg hex]
          refine ⟨?_, ?_, ?_⟩
          · simp only
            rw [keyList_modify]
            exact hw.keys_nodup
          · simp only
            rw [waitingIds_modify_away s.table rid _ r hg hbne
              (by intro r0; simp)]
            exact hw.queue_eq
          · intro rid0 hc0
            simp only at hc0
            exact Option.noConfusion hc0
      | error msg =>
          rw [worker_finish_failed b s rid r msg hc hg hex]
          refine ⟨?_, ?_, ?_⟩
          · simp only
            rw [keyList_modify]
            exact hw.keys_nodup
          · simp only
            rw [waitingIds_modify_away s.table rid _ r hg hbne
              (by intro r0; simp)]
            exact hw.queue_eq
          · intro rid0 hc0
            simp only at hc0
            exact Option.noConfusion hc0

theorem wf_step {b : Backend} {s s2 : QState} (hw : WF s)
    (hst : QStep b s s2) : WF s2 := by
  cases hst with
  | enqueue rid sid ts rd fresh => exact wf_enqueue s rid sid ts rd hw fresh
  | work_begin hc => exact wf_begin s hw hc
  | work_finish => exact wf_finish b s hw
  | work_timeout hq => exact ⟨hw.keys_nodup, hw.queue_eq, hw.cur_ok⟩

theorem wf_init : WF initState :=
  ⟨List.nodup_nil, rfl, fun rid hc => Option.noConfusion hc⟩

theorem wf_reach {b : Backend} {s : QState} (h : Reach b s) : WF s := by
  induction h with
  | init => exact wf_init
  | step _ hst ih => exact wf_step ih hst

theorem wf_star {b : Backend} {s s2 : QState} (hw : WF s)
    (h : QStar b s s2) : WF s2 := by
  induction h with
  | refl => exact hw
  | tail _ hst ih => exact wf_step ih hst

/-! ### The per-record status machine -/

/-- The transitions a record status may take in one atomic step:
`waiting → processing → \x7bcompleted | error\x7d`, plus stuttering, with the
two terminal statuses absorbing. -/
def statusStepOk : Status → Status → Bool
  | Status.waiting, Status.waiting => true
  | Status.waiting, Status.processing => true
  | Status.processing, Status.processing => true
  | Status.processing, Status.completed => true
  | Status.processing, Status.error => true
  | Status.completed, Status.completed => true
  | Status.error, Status.error => true
  | _, _ => false

theorem statusStepOk_self (st : Status) : statusStepOk st st = true := by
  cases st <;> rfl

/-- One atomic step moves each registered record along the status machine,
and leaves terminal records untouched (all fields). -/
theorem record_step {b : Backend} {s s2 : QState} (hw : WF s)
    (hst : QStep b s s2) (rid : String) (r : QueueItem)
    (hg : tblGet s.table rid = some r) :
    ∃ r2, tblGet s2.table rid = some r2 ∧
      statusStepOk r.status r2.status = true ∧
      ((r.status = Status.completed ∨ r.status = Status.error) → r2 = r) := by
  cases hst with
  | enqueue rid0 sid ts rd fresh =>
      have hne : rid ≠ rid0 := by
        intro hkk
        rw [← hkk, hg] at fresh
        exact Option.noConfusion fresh
      refine ⟨r, ?_, statusStepOk_self r.status, fun _ => rfl⟩
      rw [add_to_queue]
      simp only
      rw [tblGet_set_diff _ _ _ _ hne]
      exact hg
  | work_begin hc =>
      cases hq : s.queue with
      | nil =>
          rw [worker_begin_nil s hq]
          exact ⟨r, hg, statusStepOk_self r.status, fun _ => rfl⟩
      | cons h0 rest =>
          rw [worker_begin_cons s h0 rest hq]
          simp only
          by_cases hr0 : rid = h0
          · subst hr0
            have hqw : waitingIds s.table = rid :: rest := by
              rw [← hw.queue_eq, hq]
            obtain ⟨rw0, hrw0, hrww⟩ := mem_waitingIds_get s.table rid
              hw.keys_nodup (hqw ▸ List.mem_cons_self _ _)
            rw [hg] at hrw0
            injection hrw0 with he
            subst he
            refine ⟨{ r with status := Status.processing }, ?_, ?_, ?_⟩
            · rw [tblGet_modify_self, hg]
              rfl
            · rw [hrww]
              rfl
            · intro hterm
              rw [hrww] at hterm
              rcases hterm with ht | ht <;> exact Status.noConfusion ht
          · refine ⟨r, ?_, statusStepOk_self r.status, fun _ => rfl⟩
            rw [tblGet_modify_diff _ _ _ _ hr0]
            exact hg
  | work_finish =>
      cases hc : s.current_processing with
      | none =>
          rw [worker_finish_none b s hc]
          exact ⟨r, hg, statusStepOk_self r.status, fun _ => rfl⟩
      | some c =>
          obtain ⟨rc, hgc, hrpc⟩ := hw.cur_ok c hc
          cases hex : execute_request b rc.request_data with
          | ok res =>
              rw [worker_finish_ok b s c rc res hc hgc hex]
              simp only
              by_cases hr0 : rid = c
              · subst hr0
                rw [hg] at hgc
                injection hgc with he
                subst he
                refine ⟨{ r with
                    status := Status.completed
                    result := some res }, ?_, ?_, ?_⟩
                · rw [tblGet_modify_self, hg]
                  rfl
                · rw [hrpc]
                  rfl
                · intro hterm
                  rw [hrpc] at hterm
                  rcases hterm with ht | ht <;> exact Status.noConfusion ht
              · refine ⟨r, ?_, statusStepOk_self r.status, fun _ => rfl⟩
                rw [tblGet_modify_diff _ _ _ _ hr0]
                exact hg
          | error msg =>
              rw [worker_finish_failed b s c rc msg hc hgc hex]
              simp only
              by_cases hr0 : rid = c
              · subst hr0
                rw [hg] at hgc
                injection hgc with he
                subst he
                refine ⟨{ r with
                    status := Status.error
                    error := some msg }, ?_, ?_, ?_⟩
                · rw [tblGet_modify_self, hg]
                  rfl
                · rw [hrpc]
                  rfl
                · intro hterm
                  rw [hrpc] at hterm
                  rcases hterm with ht | ht <;> exact Status.noConfusion ht
              · refine ⟨r, ?_, statusStepOk_self r.status, fun _ => rfl⟩
                rw [tblGet_modify_diff _ _ _ _ hr0]
                exact hg
  | work_timeout hq =>
      exact ⟨r, hg, statusStepOk_self r.status, fun _ => rfl⟩

/-- A terminal record survives any number of further steps unchanged. -/
theorem record_terminal_star {b : Backend} {s s2 : QState} (hw : WF s)
    (hstar : QStar b s s2) (rid : String) (r : QueueItem)
    (hg : tblGet s.table rid = some r)
    (hterm : r.status = Status.completed ∨ r.status = Status.error) :
    tblGet s2.table rid = some r := by
  induction hstar with
  | refl => exact hg
  | tail hst hstep ih =>
      obtain ⟨r2, hg2, _, hkeep⟩ :=
        record_step (wf_star hw hst) hstep rid r ih
      rw [hg2, hkeep hterm]

/-! ### Draining the queue -/

theorem worker_iteration_nil (b : Backend) (s : QState) (h : s.queue = []) :
    worker_iteration b s = { s with is_processing := false } := by
  unfold worker_iteration
  rw [h]

theorem worker_iteration_cons (b : Backend) (s : QState) (rid : String)
    (rest : List String) (h : s.queue = rid :: rest) :
    worker_iteration b s = worker_finish b (worker_begin s) := by
  unfold worker_iteration
  rw [h]

theorem waitingIds_nodup (t : List (String × QueueItem))
    (hnd : (keyList t).Nodup) : (waitingIds t).Nodup :=
  ((List.filter_sublist t).map Prod.fst).nodup hnd

/-- What one worker iteration does to the head request of a nonempty queue
in a well-formed idle state: it resolves exactly that record to a terminal
status determined by its own backend outcome, leaves every other record
untouched, and hands back a well-formed idle state with the rest of the
queue. -/
theorem iteration_head (b : Backend) (s : QState) (rid : String)
    (rest : List String) (hw : WF s) (hc : s.current_processing = none)
    (hq : s.queue = rid :: rest) :
    ∃ r, tblGet s.table rid = some r ∧ r.status = Status.waiting ∧
    (worker_iteration b s).queue = rest ∧
    (worker_iteration b s).current_processing = none ∧
    WF (worker_iteration b s) ∧
    (∀ rid2, rid2 ≠ rid →
      tblGet (worker_iteration b s).table rid2 = tblGet s.table rid2) ∧
    ∃ r1, tblGet (worker_iteration b s).table rid = some r1 ∧
      r1.request_data = r.request_data ∧
      ((∃ res, execute_request b r.request_data = Except.ok res ∧
          r1.status = Status.completed ∧ r1.result = some res) ∨
       (∃ msg, execute_request b r.request_data = Except.error msg ∧
          r1.status = Status.error ∧ r1.error = some msg)) := by
  have hqw : waitingIds s.table = rid :: rest := by rw [← hw.queue_eq, hq]
  obtain ⟨r, hg, hrw⟩ := mem_waitingIds_get s.table rid hw.keys_nodup
    (hqw ▸ List.mem_cons_self _ _)
  have hit := worker_iteration_cons b s rid rest hq
  have hbeg := worker_begin_cons s rid rest hq
  have hw1 : WF (worker_begin s) := wf_begin s hw hc
  have hc1 : (worker_begin s).current_processing = some rid := by
    rw [hbeg]
  have hg1 : tblGet (worker_begin s).table rid =
      some { r with status := Status.processing } := by
    rw [hbeg]
    simp only
    rw [tblGet_modify_self, hg]
    rfl
  refine ⟨r, hg, hrw, ?_⟩
  cases hex : execute_request b r.request_data with
  | ok res =>
      have hfin := worker_finish_ok b (worker_begin s) rid
        { r with status := Status.processing } res hc1 hg1 (by exact hex)
      rw [hit, hfin]
      refine ⟨?_, ?_, ?_, ?_, ?_⟩
      · simp only
        rw [hbeg]
      · rfl
      · rw [← hfin]
        exact wf_finish b (worker_begin s) hw1
      · intro rid2 hne
        simp only
        rw [tblGet_modify_diff _ _ _ _ hne, hbeg]
        simp only
        rw [tblGet_modify_diff _ _ _ _ hne]
      · refine ⟨{ r with status := Status.completed, result := some res },
          ?_, rfl, Or.inl ⟨res, rfl, rfl, rfl⟩⟩
        simp only
        rw [tblGet_modify_self, hg1]
        rfl
  | error msg =>
      have hfin := worker_finish_failed b (worker_begin s) rid
        { r with status := Status.processing } msg hc1 hg1 (by exact hex)
      rw [hit, hfin]
      refine ⟨?_, ?_, ?_, ?_, ?_⟩
      · simp only
        rw [hbeg]
      · rfl
      · rw [← hfin]
        exact wf_finish b (worker_begin s) hw1
      · intro rid2 hne
        simp only
        rw [tblGet_modify_diff _ _ _ _ hne, hbeg]
        simp only
        rw [tblGet_modify_diff _ _ _ _ hne]
      · refine ⟨{ r with status := Status.error, error := some msg },
          ?_, rfl, Or.inr ⟨msg, rfl, rfl, rfl⟩⟩
        simp only
        rw [tblGet_modify_self, hg1]
        rfl

/-- One worker iteration from a well-formed idle state is a sequence of
atomic steps and lands in a well-formed idle state. -/
theorem iteration_star (b : Backend) (s : QState) (hw : WF s)
    (hc : s.current_processing = none) :
    QStar b s (worker_iteration b s) ∧ WF (worker_iteration b s) ∧
      (worker_iteration b s).current_processing = none := by
  cases hq : s.queue with
  | nil =>
      rw [worker_iteration_nil b s hq]
      refine ⟨QStar.tail (QStar.refl s) (QStep.work_timeout s hq), ?_, hc⟩
      exact ⟨hw.keys_nodup, hw.queue_eq, hw.cur_ok⟩
  | cons rid rest =>
      rw [worker_iteration_cons b s rid rest hq]
      have hstar : QStar b s (worker_finish b (worker_begin s)) :=
        QStar.tail (QStar.tail (QStar.refl s) (QStep.work_begin s hc))
          (QStep.work_finish (worker_begin s))
      have hw1 : WF (worker_begin s) := wf_begin s hw hc
      have hc1 : (worker_begin s).current_processing = some rid := by
        rw [worker_begin_cons s rid rest hq]
      obtain ⟨r1, hg1, _⟩ := hw1.cur_ok rid hc1
      refine ⟨hstar, wf_finish b (worker_begin s) hw1, ?_⟩
      cases hex : execute_request b r1.request_data with
      | ok res => rw [worker_finish_ok b _ rid r1 res hc1 hg1 hex]
      | error msg => rw [worker_finish_failed b _ rid r1 msg hc1 hg1 hex]

theorem qstar_trans {b : Backend} {s t u : QState} (h1 : QStar b s t)
    (h2 : QStar b t u) : QStar b s u := by
  induction h2 with
  | refl => exact h1
  | tail _ hstep ih => exact QStar.tail ih hstep

/-- Draining is a sequence of atomic steps preserving well-formed
idleness. -/
theorem drain_star (b : Backend) (n : Nat) :
    ∀ s : QState, WF s → s.current_processing = none →
    QStar b s (drain b n s) ∧ WF (drain b n s) ∧
      (drain b n s).current_processing = none := by
  induction n with
  | zero => exact fun s hw hc => ⟨QStar.refl s, hw, hc⟩
  | succ n ih =>
      intro s hw hc
      obtain ⟨hstar1, hw1, hc1⟩ := iteration_star b s hw hc
      obtain ⟨hstar2, hw2, hc2⟩ := ih (worker_iteration b s) hw1 hc1
      exact ⟨qstar_trans hstar1 hstar2, hw2, hc2⟩

/-- Fully draining the pending queue resolves every queued request to a
terminal status determined solely by its own backend outcome. -/
theorem drain_all (b : Backend) (q : List String) :
    ∀ s : QState, WF s → s.current_processing = none → s.queue = q →
    ∀ rid, rid ∈ q →
    ∃ r, tblGet s.table rid = some r ∧ r.status = Status.waiting ∧
    ∃ r1, tblGet (drain b q.length s).table rid = some r1 ∧
      r1.request_data = r.request_data ∧
      ((∃ res, execute_request b r.request_data = Except.ok res ∧
          r1.status = Status.completed ∧ r1.result = some res) ∨
       (∃ msg, execute_request b r.request_data = Except.error msg ∧
          r1.status = Status.error ∧ r1.error = some msg)) := by
  induction q with
  | nil => intro s _ _ _ rid hmem; simp at hmem
  | cons h0 trest ih =>
      intro s hw hc hq rid hmem
      obtain ⟨r, hg, hrw, hq1, hc1, hw1, hothers, r1, hg1, hrd1, hout1⟩ :=
        iteration_head b s h0 trest hw hc hq
      have hdrain : drain b (h0 :: trest).length s =
          drain b trest.length (worker_iteration b s) := rfl
      rcases List.mem_cons.mp hmem with he | hmem2
      · subst he
        refine ⟨r, hg, hrw, r1, ?_, hrd1, hout1⟩
        rw [hdrain]
        obtain ⟨hstar2, _, _⟩ :=
          drain_star b trest.length (worker_iteration b s) hw1 hc1
        have hterm : r1.status = Status.completed ∨ r1.status = Status.error := by
          rcases hout1 with ⟨res, _, hst, _⟩ | ⟨msg, _, hst, _⟩
          · exact Or.inl hst
          · exact Or.inr hst
        exact record_terminal_star hw1 hstar2 rid r1 hg1 hterm
      · have hqnd : (h0 :: trest).Nodup := by
          rw [← hq, hw.queue_eq]
          exact waitingIds_nodup s.table hw.keys_nodup
        have hne : rid ≠ h0 := by
          intro he
          subst he
          exact (List.nodup_cons.mp hqnd).1 hmem2
        have hgets : tblGet (worker_iteration b s).table rid =
            tblGet s.table rid := hothers rid hne
        obtain ⟨r2, hg2, hrw2, r3, hg3, hrd3, hout3⟩ :=
          ih (worker_iteration b s) hw1 hc1 hq1 rid hmem2
        rw [hgets] at hg2
        exact ⟨r2, hg2, hrw2, r3, by rw [hdrain]; exact hg3, hrd3, hout3⟩

/-! ### Dispatch facts -/

/-- Any tag outside the six recognized ones falls through every branch of
`_execute_request` to the `ValueError` raise. -/
theorem execute_unknown (b : Backend) (rd : RequestData)
    (h : rd.type ∉ knownTypes) :
    execute_request b rd =
      Except.error ("Неизвестный тип запроса: " ++ rd.type) := by
  simp only [knownTypes, List.mem_cons, List.mem_singleton, not_or] at h
  obtain ⟨h1, h2, h3, h4, h5, h6, -⟩ := h
  rw [execute_request, if_neg h1, if_neg h2, if_neg h3, if_neg h4, if_neg h5,
    if_neg h6]

/-! ### Concrete scenario material -/

/-- A backend whose every generation function raises `"boom"`. -/
def boomBackend : Backend :=
  { generate_work_plan_code := fun _ _ _ => Except.error "boom"
    generate_drilling_code := fun _ _ => Except.error "boom"
    generate_measurement_code := fun _ _ => Except.error "boom"
    generate_gas_utilization_code := fun _ _ => Except.error "boom"
    generate_final_response := fun _ => Except.error "boom"
    generate_documentation_response := fun _ _ => Except.error "boom" }

/-- A backend whose every generation function returns `"ok"`. -/
def okBackend : Backend :=
  { generate_work_plan_code := fun _ _ _ => Except.ok "ok"
    generate_drilling_code := fun _ _ => Except.ok "ok"
    generate_measurement_code := fun _ _ => Except.ok "ok"
    generate_gas_utilization_code := fun _ _ => Except.ok "ok"
    generate_final_response := fun _ => Except.ok "ok"
    generate_documentation_response := fun _ _ => Except.ok "ok" }

/-- A final-answer request payload. -/
def rdFinal : RequestData :=
  { type := "generate_final_response", state := some "st" }

/-- One request enqueued from a fresh service. -/
def sOne : QState := add_to_queue initState "req00001" "sess" 0 rdFinal

/-- The state after the worker drained that request against a backend
that raised `"boom"`: the record is terminal `'error'`. -/
def sBoom : QState := drain boomBackend 1 sOne

/-! ### Claim theorems -/

/-- Claim C3 (code bug).  After enqueueing a request whose backend raises
`"boom"` and letting the worker drain it, the record is terminal `'error'`
with the stored detail `"boom"`, and `get_result` would re-raise exactly
that detail; but the poll loop of `queue_aware_generation`, observing
`position = -1` with status text `"Ошибка"`, breaks out of the loop
without ever calling `get_result` and then executes `return result` with
the local `result` never assigned — an `UnboundLocalError`, not an error
carrying the stored `"boom"` detail.  This contradicts the specified
behavior (raise an error carrying the stored error detail). -/
theorem error_status_wait_facade_outcome :
    (tblGet sBoom.table "req00001").map (fun r => r.status) =
        some Status.error ∧
    (tblGet sBoom.table "req00001").map (fun r => r.error) =
        some (some "boom") ∧
    get_result sBoom "req00001" = ResultOutcome.raised "boom" ∧
    wait_outcome_at sBoom "req00001" = some WaitOutcome.unboundLocal := by
  refine ⟨?_, ?_, ?_, ?_⟩ <;> decide

/-- Claim C4, counterexample.  The dispatcher does not accept eight
operation tags: it has exactly six branches.  A classification request
tag and a combined-summary tag — the two operations the claim adds — fall
through to the unknown-operation error even with every argument supplied
and a backend that succeeds on everything. -/
theorem dispatch_eight_tags_refuted :
    execute_request okBackend { type := "classify_intent", query := some "q", df_info := some "d", state := some "st", doc_results := some "dr" } =
      Except.error "Неизвестный тип запроса: classify_intent" ∧
    execute_request okBackend { type := "generate_combined_summary", query := some "q", df_info := some "d", state := some "st", doc_results := some "dr" } =
      Except.error "Неизвестный тип запроса: generate_combined_summary" ∧
    knownTypes.length = 6 := by
  refine ⟨rfl, rfl, rfl⟩

/-- Claim C4, amended.  `_execute_request` accepts exactly the closed set
of six tags `generate_work_plan_code`, `generate_drilling_code`,
`generate_measurement_code`, `generate_gas_utilization_code`,
`generate_final_response`, `generate_documentation_response`, dispatching
each to the corresponding generation function with its arguments, and
raises the unknown-operation error exactly for tags outside this set. -/
theorem dispatch_exactly_six (b : Backend) (q d st dr : String)
    (sel : Option String) :
    execute_request b { type := "generate_work_plan_code", query := some q, df_info := some d, selected_option := sel } =
      b.generate_work_plan_code q d sel ∧
    execute_request b { type := "generate_drilling_code", query := some q, selected_option := sel } =
      b.generate_drilling_code q sel ∧
    execute_request b { type := "generate_measurement_code", query := some q, selected_option := sel } =
      b.generate_measurement_code q sel ∧
    execute_request b { type := "generate_gas_utilization_code", query := some q, selected_option := sel } =
      b.generate_gas_utilization_code q sel ∧
    execute_request b { type := "generate_final_response", state := some st } =
      b.generate_final_response st ∧
    execute_request b { type := "generate_documentation_response", query := some q, doc_results := some dr } =
      b.generate_documentation_response q dr ∧
    (∀ rd : RequestData, rd.type ∉ knownTypes →
      execute_request b rd =
        Except.error ("Неизвестный тип запроса: " ++ rd.type)) := by
  refine ⟨rfl, rfl, rfl, rfl, rfl, rfl, fun rd h => execute_unknown b rd h⟩

/-- Witness for the amended C4 theorem at concrete arguments, with the
unknown-tag arm discharged at the tag `"unknown_op"`. -/
theorem dispatch_exactly_six_witness :
    execute_request okBackend { type := "generate_work_plan_code", query := some "q", df_info := some "d", selected_option := none } =
      okBackend.generate_work_plan_code "q" "d" none ∧
    execute_request okBackend
      { type := "unknown_op", query := some "q" } =
      Except.error ("Неизвестный тип запроса: " ++ "unknown_op") :=
  ⟨(dispatch_exactly_six okBackend "q" "d" "st" "dr" none).1,
   (dispatch_exactly_six okBackend "q" "d" "st" "dr" none).2.2.2.2.2.2
     { type := "unknown_op", query := some "q" } (by decide)⟩

/-- Claim C9, counterexample.  `add_to_queue` keys the status table by
`str(uuid.uuid4())[:8]`; nothing enforces distinctness of the drawn
8-character prefixes.  When the same prefix is drawn twice, the second
enqueue returns the same request id and overwrites the first record in
`processing_status` instead of creating a record under a distinct id: the
queue holds two entries, but only one record exists. -/
theorem duplicate_uuid_prefix_overwrites :
    (add_to_queue (add_to_queue initState "aaaaaaaa" "sess1" 0 rdFinal)
        "aaaaaaaa" "sess2" 1 rdFinal).table.length = 1 ∧
    (add_to_queue (add_to_queue initState "aaaaaaaa" "sess1" 0 rdFinal)
        "aaaaaaaa" "sess2" 1 rdFinal).queue.length = 2 ∧
    tblGet (add_to_queue (add_to_queue initState "aaaaaaaa" "sess1" 0 rdFinal)
        "aaaaaaaa" "sess2" 1 rdFinal).table "aaaaaaaa" =
      some (mkQueueItem "aaaaaaaa" "sess2" 1 rdFinal) := by
  refine ⟨?_, ?_, ?_⟩ <;> decide

/-- Claim C9, amended.  Each `add_to_queue` call unconditionally creates a
new queue entry and registers a `'waiting'` record with no deduplication
of equal payloads; provided the two drawn uuid prefixes differ (which the
code does not enforce), the two calls yield two distinct ids and two
independent records, each independently drained to `'completed'` by its
own backend call. -/
theorem fresh_ids_independent_records (rid1 rid2 sid1 sid2 : String)
    (ts1 ts2 : Nat) (rd : RequestData) (b : Backend) (v : String)
    (hne : rid1 ≠ rid2) (hok : execute_request b rd = Except.ok v) :
    tblGet (add_to_queue (add_to_queue initState rid1 sid1 ts1 rd)
        rid2 sid2 ts2 rd).table rid1 = some (mkQueueItem rid1 sid1 ts1 rd) ∧
    tblGet (add_to_queue (add_to_queue initState rid1 sid1 ts1 rd)
        rid2 sid2 ts2 rd).table rid2 = some (mkQueueItem rid2 sid2 ts2 rd) ∧
    (add_to_queue (add_to_queue initState rid1 sid1 ts1 rd)
        rid2 sid2 ts2 rd).queue = [rid1, rid2] ∧
    (tblGet (drain b 2 (add_to_queue (add_to_queue initState rid1 sid1 ts1 rd)
        rid2 sid2 ts2 rd)).table rid1).map (fun r => (r.status, r.result)) =
      some (Status.completed, some v) ∧
    (tblGet (drain b 2 (add_to_queue (add_to_queue initState rid1 sid1 ts1 rd)
        rid2 sid2 ts2 rd)).table rid2).map (fun r => (r.status, r.result)) =
      some (Status.completed, some v) := by
  have hfresh1 : tblGet initState.table rid1 = none := rfl
  have hfresh2 : tblGet (add_to_queue initState rid1 sid1 ts1 rd).table rid2 =
      none := by
    show tblGet (tblSet [] rid1 (mkQueueItem rid1 sid1 ts1 rd)) rid2 = none
    rw [tblGet_set_diff _ _ _ _ (Ne.symm hne)]
    rfl
  have hw2 : WF (add_to_queue (add_to_queue initState rid1 sid1 ts1 rd)
      rid2 sid2 ts2 rd) :=
    wf_enqueue _ rid2 sid2 ts2 rd
      (wf_enqueue _ rid1 sid1 ts1 rd wf_init hfresh1) hfresh2
  have hg1 : tblGet (add_to_queue (add_to_queue initState rid1 sid1 ts1 rd)
      rid2 sid2 ts2 rd).table rid1 = some (mkQueueItem rid1 sid1 ts1 rd) := by
    show tblGet (tblSet (tblSet [] rid1 (mkQueueItem rid1 sid1 ts1 rd))
        rid2 (mkQueueItem rid2 sid2 ts2 rd)) rid1 = _
    rw [tblGet_set_diff _ _ _ _ hne, tblGet_set_self]
  have hg2 : tblGet (add_to_queue (add_to_queue initState rid1 sid1 ts1 rd)
      rid2 sid2 ts2 rd).table rid2 = some (mkQueueItem rid2 sid2 ts2 rd) := by
    show tblGet (tblSet (tblSet [] rid1 (mkQueueItem rid1 sid1 ts1 rd))
        rid2 (mkQueueItem rid2 sid2 ts2 rd)) rid2 = _
    rw [tblGet_set_self]
  have hqe : (add_to_queue (add_to_queue initState rid1 sid1 ts1 rd)
      rid2 sid2 ts2 rd).queue = [rid1, rid2] := rfl
  refine ⟨hg1, hg2, hqe, ?_, ?_⟩
  · obtain ⟨r, hg, _, r1, hgd, _, hout⟩ :=
      drain_all b [rid1, rid2] _ hw2 rfl hqe rid1 (by simp)
    rw [hg1] at hg
    injection hg with hg
    simp only [List.length_cons, List.length_nil] at hgd
    rw [hgd]
    have hrd : r.request_data = rd := hg ▸ rfl
    rcases hout with ⟨res, hres, hst, hrr⟩ | ⟨msg, hmsg, _, _⟩
    · rw [hrd, hok] at hres
      injection hres with hres
      simp only [Option.map_some']
      rw [hst, hrr, hres]
    · rw [hrd, hok] at hmsg
      exact Except.noConfusion hmsg
  · obtain ⟨r, hg, _, r1, hgd, _, hout⟩ :=
      drain_all b [rid1, rid2] _ hw2 rfl hqe rid2 (by simp)
    rw [hg2] at hg
    injection hg with hg
    simp only [List.length_cons, List.length_nil] at hgd
    rw [hgd]
    have hrd : r.request_data = rd := hg ▸ rfl
    rcases hout with ⟨res, hres, hst, hrr⟩ | ⟨msg, hmsg, _, _⟩
    · rw [hrd, hok] at hres
      injection hres with hres
      simp only [Option.map_some']
      rw [hst, hrr, hres]
    · rw [hrd, hok] at hmsg
      exact Except.noConfusion hmsg

/-- Witness for the amended C9 theorem: two concrete distinct ids with the
same payload, against a backend returning `"ok"`. -/
theorem fresh_ids_independent_records_witness :
    tblGet (add_to_queue (add_to_queue initState "aaaa0001" "s1" 0 rdFinal)
        "bbbb0002" "s2" 1 rdFinal).table "aaaa0001" =
      some (mkQueueItem "aaaa0001" "s1" 0 rdFinal) ∧
    tblGet (add_to_queue (add_to_queue initState "aaaa0001" "s1" 0 rdFinal)
        "bbbb0002" "s2" 1 rdFinal).table "bbbb0002" =
      some (mkQueueItem "bbbb0002" "s2" 1 rdFinal) ∧
    (add_to_queue (add_to_queue initState "aaaa0001" "s1" 0 rdFinal)
        "bbbb0002" "s2" 1 rdFinal).queue = ["aaaa0001", "bbbb0002"] ∧
    (tblGet (drain okBackend 2
        (add_to_queue (add_to_queue initState "aaaa0001" "s1" 0 rdFinal)
          "bbbb0002" "s2" 1 rdFinal)).table "aaaa0001").map
      (fun r => (r.status, r.result)) = some (Status.completed, some "ok") ∧
    (tblGet (drain okBackend 2
        (add_to_queue (add_to_queue initState "aaaa0001" "s1" 0 rdFinal)
          "bbbb0002" "s2" 1 rdFinal)).table "bbbb0002").map
      (fun r => (r.status, r.result)) = some (Status.completed, some "ok") :=
  fresh_ids_independent_records "aaaa0001" "bbbb0002" "s1" "s2" 0 1 rdFinal
    okBackend "ok" (by decide) rfl

theorem get_queue_position_waiting (s : QState) (rid : String)
    (r : QueueItem) (hg : tblGet s.table rid = some r)
    (hw : r.status = Status.waiting) :
    (get_queue_position s rid).fst = ((findPosition s.queue rid 0 : Nat) : Int) := by
  simp only [get_queue_position, hg, hw]

/-- Claim C2.  In any reachable state, for two registered requests A and B
with A enqueued before B (insertion rank in the status table, which is
enqueue order since ids are drawn fresh), while both are still `'waiting'`
the reported queue position of A is strictly smaller than that of B; and
the worker dequeues the head of the queue, which is always the
earliest-enqueued still-waiting request — FIFO, with no reordering by
session or payload kind (neither field is consulted). -/
theorem fifo_order_of_waiting (b : Backend) (s : QState) (hr : Reach b s)
    (A B : String) (rA rB : QueueItem)
    (hgA : tblGet s.table A = some rA) (hgB : tblGet s.table B = some rB)
    (hwA : rA.status = Status.waiting) (hwB : rB.status = Status.waiting)
    (hAB : keyIdx s.table A < keyIdx s.table B) :
    (get_queue_position s A).fst < (get_queue_position s B).fst ∧
    ∀ hd tl, s.queue = hd :: tl → keyIdx s.table hd ≤ keyIdx s.table A := by
  have hw := wf_reach hr
  constructor
  · have hmemA : A ∈ waitingIds s.table := get_waiting_mem _ _ _ hgA hwA
    have hmemB : B ∈ waitingIds s.table := get_waiting_mem _ _ _ hgB hwB
    have hidx := waiting_order s.table A B rA rB hw.keys_nodup hgA hwA hgB
      hwB hAB
    rw [get_queue_position_waiting s A rA hgA hwA,
      get_queue_position_waiting s B rB hgB hwB, hw.queue_eq,
      findPosition_eq _ _ _ hmemA, findPosition_eq _ _ _ hmemB]
    omega
  · intro hd tl hqe
    have hqw : waitingIds s.table = hd :: tl := by rw [← hw.queue_eq, hqe]
    exact waiting_head_min s.table hd A tl rA hw.keys_nodup hqw hgA hwA

/-- Two requests enqueued in order from a fresh service. -/
def sTwo : QState :=
  add_to_queue (add_to_queue initState "a0000001" "s1" 0 rdFinal)
    "b0000002" "s2" 1 rdFinal

/-- Witness for the C2 theorem: with two waiting requests enqueued in
order, the first reports the strictly smaller position and heads the
dequeue order. -/
theorem fifo_order_of_waiting_witness :
    (get_queue_position sTwo "a0000001").fst <
      (get_queue_position sTwo "b0000002").fst ∧
    ∀ hd tl, sTwo.queue = hd :: tl →
      keyIdx sTwo.table hd ≤ keyIdx sTwo.table "a0000001" :=
  fifo_order_of_waiting okBackend sTwo
    (Reach.step
      (Reach.step Reach.init
        (QStep.enqueue initState "a0000001" "s1" 0 rdFinal (by decide)))
      (QStep.enqueue (add_to_queue initState "a0000001" "s1" 0 rdFinal)
        "b0000002" "s2" 1 rdFinal (by decide)))
    "a0000001" "b0000002" (mkQueueItem "a0000001" "s1" 0 rdFinal)
    (mkQueueItem "b0000002" "s2" 1 rdFinal)
    (by decide) (by decide) (by decide) (by decide) (by decide)

/-- Claim C5.  Any enqueued request whose operation tag is not one of the
six recognized ones is resolved by the worker to terminal `'error'` —
never left `'processing'` nor dropped — and the stored detail is the
`ValueError` text naming the unrecognized tag. -/
theorem unknown_op_resolves_to_error (b : Backend) (s : QState)
    (hr : Reach b s) (hc : s.current_processing = none)
    (rid : String) (r : QueueItem) (hmem : rid ∈ s.queue)
    (hg : tblGet s.table rid = some r)
    (hunk : r.request_data.type ∉ knownTypes) :
    ∃ r1, tblGet (drain b s.queue.length s).table rid = some r1 ∧
      r1.status = Status.error ∧
      r1.error = some ("Неизвестный тип запроса: " ++ r.request_data.type) := by
  have hw := wf_reach hr
  obtain ⟨r0, hg0, _, r1, hg1, _, hout⟩ :=
    drain_all b s.queue s hw hc rfl rid hmem
  rw [hg0] at hg
  injection hg with hg
  subst hg
  have hexec := execute_unknown b r0.request_data hunk
  rcases hout with ⟨res, hres, _, _⟩ | ⟨msg, hmsg, hst, herrd⟩
  · rw [hexec] at hres
    exact Except.noConfusion hres
  · rw [hexec] at hmsg
    injection hmsg with hmsg
    exact ⟨r1, hg1, hst, by rw [herrd, ← hmsg]⟩

/-- An unknown-operation payload, as in spec scenario 4. -/
def rdUnknown : RequestData := { type := "unknown_op", query := some "q" }

/-- One unknown-operation request enqueued from a fresh service. -/
def sUnk : QState := add_to_queue initState "u0000001" "sess" 0 rdUnknown

/-- Witness for the C5 theorem: an enqueued `"unknown_op"` request drains
to `'error'` with the detail naming the tag. -/
theorem unknown_op_resolves_to_error_witness :
    ∃ r1, tblGet (drain okBackend sUnk.queue.length sUnk).table "u0000001" =
        some r1 ∧
      r1.status = Status.error ∧
      r1.error = some ("Неизвестный тип запроса: " ++
        (mkQueueItem "u0000001" "sess" 0 rdUnknown).request_data.type) :=
  unknown_op_resolves_to_error okBackend sUnk
    (Reach.step Reach.init
      (QStep.enqueue initState "u0000001" "sess" 0 rdUnknown (by decide)))
    rfl "u0000001" (mkQueueItem "u0000001" "sess" 0 rdUnknown)
    (by decide) (by decide) (by decide)

/-- Claim C6.  Fully draining the queue of a reachable idle state gives
every queued request a terminal record determined solely by its own
backend call: a raising call yields `'error'` with the captured message on
that record only, and every other queued request with a returning backend
call still reaches `'completed'` with its result — the exception is caught
inside the worker loop and the loop continues. -/
theorem backend_failure_isolated (b : Backend) (s : QState) (hr : Reach b s)
    (hc : s.current_processing = none) (rid : String) (r : QueueItem)
    (hmem : rid ∈ s.queue) (hg : tblGet s.table rid = some r) :
    ∃ r1, tblGet (drain b s.queue.length s).table rid = some r1 ∧
      r1.request_data = r.request_data ∧
      ((∃ res, execute_request b r.request_data = Except.ok res ∧
          r1.status = Status.completed ∧ r1.result = some res) ∨
       (∃ msg, execute_request b r.request_data = Except.error msg ∧
          r1.status = Status.error ∧ r1.error = some msg)) := by
  have hw := wf_reach hr
  obtain ⟨r0, hg0, _, r1, hg1, hrd, hout⟩ :=
    drain_all b s.queue s hw hc rfl rid hmem
  rw [hg0] at hg
  injection hg with hg
  subst hg
  exact ⟨r1, hg1, hrd, hout⟩

/-- A backend that raises `"boom"` exactly on the final-response payload
`"bad"` and returns `"fine"` otherwise. -/
def mixBackend : Backend :=
  { generate_work_plan_code := fun _ _ _ => Except.ok "fine"
    generate_drilling_code := fun _ _ => Except.ok "fine"
    generate_measurement_code := fun _ _ => Except.ok "fine"
    generate_gas_utilization_code := fun _ _ => Except.ok "fine"
    generate_final_response := fun st =>
      if st = "bad" then Except.error "boom" else Except.ok "fine"
    generate_documentation_response := fun _ _ => Except.ok "fine" }

/-- A failing request followed by a succeeding one. -/
def sMix : QState :=
  add_to_queue (add_to_queue initState "f0000001" "s1" 0
      { type := "generate_final_response", state := some "bad" })
    "g0000002" "s2" 1 { type := "generate_final_response", state := some "good" }

/-- Witness for the C6 theorem, applied to the request enqueued after the
failing one: it still completes normally. -/
theorem backend_failure_isolated_witness :
    ∃ r1, tblGet (drain mixBackend sMix.queue.length sMix).table "g0000002" =
        some r1 ∧
      r1.request_data =
        (mkQueueItem "g0000002" "s2" 1
          { type := "generate_final_response", state := some "good" }).request_data ∧
      ((∃ res, execute_request mixBackend
          (mkQueueItem "g0000002" "s2" 1
            { type := "generate_final_response",
              state := some "good" }).request_data = Except.ok res ∧
          r1.status = Status.completed ∧ r1.result = some res) ∨
       (∃ msg, execute_request mixBackend
          (mkQueueItem "g0000002" "s2" 1
            { type := "generate_final_response",
              state := some "good" }).request_data = Except.error msg ∧
          r1.status = Status.error ∧ r1.error = some msg)) :=
  backend_failure_isolated mixBackend sMix
    (Reach.step
      (Reach.step Reach.init
        (QStep.enqueue initState "f0000001" "s1" 0
          { type := "generate_final_response", state := some "bad" }
          (by decide)))
      (QStep.enqueue
        (add_to_queue initState "f0000001" "s1" 0
          { type := "generate_final_response", state := some "bad" })
        "g0000002" "s2" 1
        { type := "generate_final_response", state := some "good" }
        (by decide)))
    rfl "g0000002"
    (mkQueueItem "g0000002" "s2" 1
      { type := "generate_final_response", state := some "good" })
    (by decide) (by decide)

/-- Claim C7.  In any reachable state, one atomic step of any mutating
operation moves each registered record only along
`waiting → processing → \x7bcompleted | error\x7d` (or leaves it in place), and
once a record is `'completed'` or `'error'`, any number of further steps
leaves the whole record — status, result and error fields — unchanged.
The position and result queries (`get_queue_position`, `get_result`) are
pure functions of the state in this embedding and mutate nothing by
construction. -/
theorem status_monotonic_terminal_immutable (b : Backend) (s : QState)
    (hr : Reach b s) (rid : String) (r : QueueItem)
    (hg : tblGet s.table rid = some r) :
    (∀ s2, QStep b s s2 → ∃ r2, tblGet s2.table rid = some r2 ∧
        statusStepOk r.status r2.status = true) ∧
    ((r.status = Status.completed ∨ r.status = Status.error) →
      ∀ s2, QStar b s s2 → tblGet s2.table rid = some r) := by
  have hw := wf_reach hr
  refine ⟨fun s2 hstep => ?_, fun hterm s2 hstar =>
    record_terminal_star hw hstar rid r hg hterm⟩
  obtain ⟨r2, hg2, hok, _⟩ := record_step hw hstep rid r hg
  exact ⟨r2, hg2, hok⟩

/-- The error record left by the drained `"boom"` scenario. -/
def rBoom : QueueItem :=
  { request_id := "req00001", session_id := "sess", timestamp := 0,
    request_data := rdFinal, status := Status.error, result := none,
    error := some "boom" }

/-- Witness for the C7 theorem at the drained `"boom"` state: the terminal
`'error'` record is immutable under all further steps. -/
theorem status_monotonic_terminal_immutable_witness :
    (∀ s2, QStep boomBackend sBoom s2 →
      ∃ r2, tblGet s2.table "req00001" = some r2 ∧
        statusStepOk rBoom.status r2.status = true) ∧
    ((rBoom.status = Status.completed ∨ rBoom.status = Status.error) →
      ∀ s2, QStar boomBackend sBoom s2 →
        tblGet s2.table "req00001" = some rBoom) :=
  status_monotonic_terminal_immutable boomBackend sBoom
    (Reach.step
      (Reach.step
        (Reach.step Reach.init
          (QStep.enqueue initState "req00001" "sess" 0 rdFinal (by decide)))
        (QStep.work_begin sOne rfl))
      (QStep.work_finish (worker_begin sOne)))
    "req00001" rBoom (by decide)

/-- Claim C8.  For every input code string and execution environment,
`execute_generated_code` returns the `(output, plot-path-or-none, code)`
triple: when Python `exec` of the wrapped source returns, the captured
stdout is the returned output (the inner `try/except Exception` guard has
already turned generated-code exceptions into printed text); when an
exception escapes `exec`, the outer `except Exception` converts it into a
text-only triple carrying the failure description — no exception is
propagated to the caller. -/
theorem exec_wrapper_always_returns_triple (env : ExecEnv) (code : String) :
    (execute_generated_code env code).code = rewritePlot env code ∧
    (∀ out, env.run (indentWrap (rewritePlot env code)) =
        ExecOutcome.finished out →
      (execute_generated_code env code).output = out) ∧
    (∀ msg, env.run (indentWrap (rewritePlot env code)) =
        ExecOutcome.raised msg →
      (execute_generated_code env code).output =
        "Ошибка при выполнении кода:
" ++ msg ∧
      (execute_generated_code env code).plot_path = none) := by
  cases hrun : env.run (indentWrap (rewritePlot env code)) with
  | finished out =>
      refine ⟨?_, ?_, ?_⟩
      · simp [execute_generated_code, hrun]
      · intro out0 h0
        injection h0 with h0
        subst h0
        simp [execute_generated_code, hrun]
      · intro msg h0
        exact ExecOutcome.noConfusion h0
  | raised msg =>
      refine ⟨?_, ?_, ?_⟩
      · simp [execute_generated_code, hrun]
      · intro out0 h0
        exact ExecOutcome.noConfusion h0
      · intro msg0 h0
        injection h0 with h0
        subst h0
        constructor
        · simp [execute_generated_code, hrun]
        · simp [execute_generated_code, hrun]

/-- An execution environment whose `exec` raises `"boom"`. -/
def envRaise : ExecEnv :=
  { run := fun _ => ExecOutcome.raised "boom"
    fileExists := fun _ => false
    timestamp := "20240101_000000"
    unique_id := "deadbeef" }

/-- Witness for the C8 theorem: with an `exec` that raises `"boom"`, the
call still returns a triple whose output reports the failure. -/
theorem exec_wrapper_always_returns_triple_witness :
    (execute_generated_code envRaise "print(1)").output =
      "Ошибка при выполнении кода:
" ++ "boom" ∧
    (execute_generated_code envRaise "print(1)").plot_path = none :=
  (exec_wrapper_always_returns_triple envRaise "print(1)").2.2 "boom" rfl

/-- Claim C10.  When the input code contains `plt.show()`, the returned
normalized code is the input with a figure-creation line prepended when
`plt.figure(` is absent and every `plt.show()` replaced by the
`plt.tight_layout()` / `plt.savefig(<unique png name>)` pair; the returned
plot path, when non-null, is that unique name and requires both that the
file exists after execution and that the captured output does not contain
the substring `"Ошибка"` — so any output containing that substring, even
legitimate printed data, forces the returned plot path to null. -/
theorem plot_rewrite_and_null_forcing (env : ExecEnv) (code : String)
    (h : strContains code "plt.show()" = true) :
    (execute_generated_code env code).code =
      strReplace
        (if strContains code "plt.figure(" then code
         else "plt.figure(figsize=(10, 6))
" ++ code)
        "plt.show()"
        ("plt.tight_layout()
plt.savefig('" ++ uniquePlotName env ++
          "', dpi=150, bbox_inches='tight')") ∧
    (∀ p, (execute_generated_code env code).plot_path = some p →
      p = uniquePlotName env ∧ env.fileExists (uniquePlotName env) = true ∧
      strContains (execute_generated_code env code).output "Ошибка" = false) ∧
    (strContains (execute_generated_code env code).output "Ошибка" = true →
      (execute_generated_code env code).plot_path = none) := by
  cases hrun : env.run (indentWrap (rewritePlot env code)) with
  | finished out =>
      have hout : (execute_generated_code env code).output = out := by
        simp [execute_generated_code, hrun]
      have hcode : (execute_generated_code env code).code =
          rewritePlot env code := by
        simp [execute_generated_code, hrun]
      have hplot : (execute_generated_code env code).plot_path =
          if env.fileExists (uniquePlotName env) &&
            !(strContains out "Ошибка") then some (uniquePlotName env)
          else none := by
        simp [execute_generated_code, hrun, h]
      refine ⟨?_, ?_, ?_⟩
      · rw [hcode, rewritePlot, if_pos h]
      · intro p hp
        rw [hplot] at hp
        by_cases hf : env.fileExists (uniquePlotName env) = true
        · by_cases hc2 : strContains out "Ошибка" = true
          · rw [hf, hc2] at hp
            simp at hp
          · have hc3 : strContains out "Ошибка" = false := by
              cases hb : strContains out "Ошибка"
              · rfl
              · exact absurd hb hc2
            rw [hf, hc3] at hp
            simp at hp
            exact ⟨hp.symm, hf, by rw [hout, hc3]⟩
        · have hf2 : env.fileExists (uniquePlotName env) = false := by
            cases hb : env.fileExists (uniquePlotName env)
            · rfl
            · exact absurd hb hf
          rw [hf2] at hp
          simp at hp
      · intro hcont
        rw [hout] at hcont
        rw [hplot, hcont]
        simp
  | raised msg =>
      have hcode : (execute_generated_code env code).code =
          rewritePlot env code := by
        simp [execute_generated_code, hrun]
      have hplot : (execute_generated_code env code).plot_path = none := by
        simp [execute_generated_code, hrun]
      refine ⟨by rw [hcode, rewritePlot, if_pos h], ?_, fun _ => hplot⟩
      intro p hp
      rw [hplot] at hp
      exact Option.noConfusion hp

/-- An execution environment whose `exec` prints `"done"` and in which the
saved plot file exists. -/
def envPlot : ExecEnv :=
  { run := fun _ => ExecOutcome.finished "done
"
    fileExists := fun _ => true
    timestamp := "20240101_000000"
    unique_id := "deadbeef" }

/-- Witness for the C10 theorem on a concrete plotting snippet without a
`plt.figure(` call. -/
theorem plot_rewrite_and_null_forcing_witness :
    (execute_generated_code envPlot "plt.plot([1, 2])
plt.show()").code =
      strReplace
        (if strContains "plt.plot([1, 2])
plt.show()" "plt.figure(" then
          "plt.plot([1, 2])
plt.show()"
         else "plt.figure(figsize=(10, 6))
" ++ "plt.plot([1, 2])
plt.show()")
        "plt.show()"
        ("plt.tight_layout()
plt.savefig('" ++ uniquePlotName envPlot ++
          "', dpi=150, bbox_inches='tight')") ∧
    (∀ p, (execute_generated_code envPlot
        "plt.plot([1, 2])
plt.show()").plot_path = some p →
      p = uniquePlotName envPlot ∧
      envPlot.fileExists (uniquePlotName envPlot) = true ∧
      strContains (execute_generated_code envPlot
        "plt.plot([1, 2])
plt.show()").output "Ошибка" = false) ∧
    (strContains (execute_generated_code envPlot
        "plt.plot([1, 2])
plt.show()").output "Ошибка" = true →
      (execute_generated_code envPlot
        "plt.plot([1, 2])
plt.show()").plot_path = none) :=
  plot_rewrite_and_null_forcing envPlot "plt.plot([1, 2])
plt.show()"
    (by decide)

end Prizemlyator
